import Mathlib

/-!
Shallow embedding of the `easy-riscv` repository: the assembler's tokenizer
(`src/riscv-asm/src/tokenizer.rs`), the undefined-symbol reporting stage of
`assemble` (`src/riscv-asm/src/assembler.rs`), the error type
(`src/riscv-asm/src/error.rs`), and the emulator's CPU
(`src/riscv-emu/src/cpu.rs`).

Rust conventions mirrored here:
* `u32` values are `Nat` with explicit `% 2 ^ 32` where wraparound matters;
  bytes of `dram` are `Nat` assumed `< 256` where a theorem needs it.
* Fallible indexing (Rust panics) becomes `Option`.
* Iteration over a peekable char iterator becomes structural recursion with a
  fuel argument bounding the number of loop iterations; every iteration of the
  Rust loop consumes at least one character, so `length + 1` fuel is exact.
-/

namespace EasyRiscv

/-- `SourceLocation` from `error.rs`: 1-indexed line and column. -/
structure SourceLocation where
  line : Nat
  col : Nat
deriving DecidableEq, Repr

/-- `AssemblerError` from `error.rs`.  The `symbolError` variant is
Modelled from the spec: `error.rs` marks the enum unfinished (`// FIX:`) and
lacks the `SymbolError` variant that `assemble` in `assembler.rs` constructs;
spec section 7 lists SymbolError in the error taxonomy with a message and a
location, which is exactly the shape `assemble` builds. -/
inductive AssemblerError where
  | tokenizerError (message : String) (location : SourceLocation)
  | parserError (message : String) (location : SourceLocation)
  | symbolError (message : String) (location : SourceLocation)
  | multipleErrors (errors : List AssemblerError)

/-- `Base` from `tokenizer.rs`. -/
inductive Base where
  | dec
  | hex
deriving DecidableEq, Repr

/-- `TokenKind` from `tokenizer.rs`. -/
inductive TokenKind where
  | instruction
  | pseudoinstruction
  | directive
  | identifier
  | register
  | comment
  | number (base : Base)
  | comma
  | colon
  | lparen
  | rparen
  | newline
  | endOfFile
  | string
deriving DecidableEq, Repr

/-- `Token` from `tokenizer.rs`. -/
structure Token where
  kind : TokenKind
  text : Option String
  location : SourceLocation
deriving DecidableEq, Repr

/-- The register names of `classify_identifier` in `tokenizer.rs`. -/
def registerNames : List String :=
  ["zero", "ra", "sp", "gp", "tp", "fp", "s0", "s1", "s2", "s3", "s4", "s5",
   "s6", "s7", "s8", "s9", "s10", "s11", "a0", "a1", "a2", "a3", "a4", "a5",
   "a6", "a7", "t0", "t1", "t2", "t3", "t4", "t5", "t6", "x0", "x1", "x2",
   "x3", "x4", "x5", "x6", "x7", "x8", "x9", "x10", "x11", "x12", "x13",
   "x14", "x15", "x16", "x17", "x18", "x19", "x20", "x21", "x22", "x23",
   "x24", "x25", "x26", "x27", "x28", "x29", "x30", "x31"]

/-- The instruction mnemonics of `classify_identifier` in `tokenizer.rs`. -/
def instructionNames : List String :=
  ["add", "sub", "sll", "slt", "sltu", "xor", "srl", "sra", "or", "and",
   "addi", "slti", "sltiu", "xori", "ori", "andi", "slli", "srli", "srai",
   "lb", "lh", "lw", "lbu", "lhu", "jalr", "sb", "sh", "sw",
   "beq", "bne", "blt", "bge", "bltu", "bgeu", "lui", "auipc", "jal", "ecall"]

/-- The pseudo-instruction mnemonics of `classify_identifier` in `tokenizer.rs`. -/
def pseudoNames : List String :=
  ["inc", "dec", "mv", "nop", "neg", "li"]

/-- `classify_identifier` from `tokenizer.rs`: exact-match lookup against the
fixed name sets, defaulting to `identifier`.  The three sets are pairwise
disjoint, so the if-chain is the Rust `match`. -/
def classify_identifier (s : String) : TokenKind :=
  if registerNames.contains s then TokenKind.register
  else if instructionNames.contains s then TokenKind.instruction
  else if pseudoNames.contains s then TokenKind.pseudoinstruction
  else TokenKind.identifier

/-- Rust `char::is_ascii_hexdigit`. -/
def isAsciiHexDigit (c : Char) : Bool :=
  c.isDigit || ('a' ≤ c && c ≤ 'f') || ('A' ≤ c && c ≤ 'F')

/-- The digit run consumed by `while chars.peek().is_ascii_digit()` in the
number arm of `tokenize`: (consumed run, rest). -/
def takeDigits : List Char → List Char × List Char
  | [] => ([], [])
  | c :: cs =>
    if c.isDigit then
      let p := takeDigits cs
      (c :: p.1, p.2)
    else ([], c :: cs)

/-- The hex-digit run consumed in the `0x` branch of the number arm. -/
def takeHexDigits : List Char → List Char × List Char
  | [] => ([], [])
  | c :: cs =>
    if isAsciiHexDigit c then
      let p := takeHexDigits cs
      (c :: p.1, p.2)
    else ([], c :: cs)

/-- The alphabetic run consumed by the directive arm of `tokenize`. -/
def takeAlpha : List Char → List Char × List Char
  | [] => ([], [])
  | c :: cs =>
    if c.isAlpha then
      let p := takeAlpha cs
      (c :: p.1, p.2)
    else ([], c :: cs)

/-- The alphabetic/underscore run consumed by the identifier arm of
`tokenize`.  Note: ASCII digits are not accepted here, exactly as in the
source (`c.is_ascii_alphabetic() || c == &'_'`). -/
def takeIdent : List Char → List Char × List Char
  | [] => ([], [])
  | c :: cs =>
    if c.isAlpha || c = '_' then
      let p := takeIdent cs
      (c :: p.1, p.2)
    else ([], c :: cs)

/-- The string-literal loop of `tokenize`: consumes characters (tracking the
`escaped` flag exactly as the source does) until an unescaped `"` or the end
of the line; returns (consumed characters in order, rest). -/
def scanStringBody : List Char → Bool → List Char × List Char
  | [], _ => ([], [])
  | c :: cs, escaped =>
    if c = '"' && !escaped then ([c], cs)
    else if c = '\\' then
      let p := scanStringBody cs true
      (c :: p.1, p.2)
    else
      let p := scanStringBody cs false
      (c :: p.1, p.2)

/-- The outcome of one iteration of the inner
`while let Some(char) = chars.next()` loop of `tokenize`: continue without a
token, break out of the line (comment), or push one token and continue.  In
each case the remaining characters and the updated column are carried
along. -/
inductive StepOut where
  | skip (rest : List Char) (col : Nat)
  | stop (col : Nat)
  | tok (t : Token) (rest : List Char) (col : Nat)
deriving DecidableEq, Repr

/-- One iteration of the character loop of `tokenize`, dispatching on the
character `c` just taken from the iterator, with `cs` the iterator's
remaining characters.  `line` is the whole line (captured for the Directive
token's text, as the source pushes `line.to_string()`).

The Rust `anyhow!(...)` expressions in the `'-'` guard, the unterminated
string check and the unexpected-character arm build an error value and
discard it (no `return` / `bail!`), so no arm can fail and the embedding is
total. -/
def scanStep (lineNum : Nat) (line : List Char) (c : Char) (cs : List Char)
    (col : Nat) : StepOut :=
  let loc : SourceLocation := ⟨lineNum, col⟩
  if c = ' ' ∨ c = '\t' ∨ c = '\r' then
    StepOut.skip cs (col + 1)
  else if c = '#' then
    StepOut.stop col
  else if c = ',' then
    StepOut.tok ⟨TokenKind.comma, some (String.mk [c]), loc⟩ cs (col + 1)
  else if c = ':' then
    StepOut.tok ⟨TokenKind.colon, some (String.mk [c]), loc⟩ cs (col + 1)
  else if c = '(' then
    StepOut.tok ⟨TokenKind.lparen, some (String.mk [c]), loc⟩ cs (col + 1)
  else if c = ')' then
    StepOut.tok ⟨TokenKind.rparen, some (String.mk [c]), loc⟩ cs (col + 1)
  else if c = '-' ∨ c.isDigit then
    if c = '-' then
      -- if the next character is not a digit, `anyhow!` is built and dropped
      let d := takeDigits cs
      StepOut.tok ⟨TokenKind.number Base.dec, some (String.mk (c :: d.1)), loc⟩
        d.2 (col + 1 + d.1.length)
    else if c = '0' ∧ cs.head? = some 'x' then
      let d := takeHexDigits cs.tail
      StepOut.tok ⟨TokenKind.number Base.hex, some (String.mk ('0' :: 'x' :: d.1)), loc⟩
        d.2 (col + 2 + d.1.length)
    else
      let d := takeDigits cs
      StepOut.tok ⟨TokenKind.number Base.dec, some (String.mk (c :: d.1)), loc⟩
        d.2 (col + 1 + d.1.length)
  else if c = '.' then
    let d := takeAlpha cs
    StepOut.tok ⟨TokenKind.directive, some (String.mk line), loc⟩
      d.2 (col + 1 + d.1.length)
  else if c.isAlpha ∨ c = '_' then
    let d := takeIdent cs
    let text := String.mk (c :: d.1)
    StepOut.tok ⟨classify_identifier text, some text, loc⟩ d.2 (col + 1 + d.1.length)
  else if c = '"' then
    let d := scanStringBody cs false
    -- the `ends_with('"')` check only feeds a dropped `anyhow!`
    StepOut.tok ⟨TokenKind.string, some (String.mk (c :: d.1)), loc⟩
      d.2 (col + 1 + d.1.length)
  else
    -- `anyhow!("unexpected character ...")` discarded; `col_num` is not
    -- incremented in this arm of the source either.
    StepOut.skip cs col

/-- The inner character loop of `tokenize`: iterate `scanStep` over the
line, collecting pushed tokens; returns the tokens and the final column
(used for the Newline token's location).  Fuel bounds iterations; each
iteration consumes at least one character, so `length + 1` is enough. -/
def scanChars (lineNum : Nat) (line : List Char) :
    Nat → List Char → Nat → List Token × Nat
  | 0, _, col => ([], col)
  | _ + 1, [], col => ([], col)
  | fuel + 1, c :: cs, col =>
    match scanStep lineNum line c cs col with
    | StepOut.skip rest col2 => scanChars lineNum line fuel rest col2
    | StepOut.stop col2 => ([], col2)
    | StepOut.tok t rest col2 =>
      let p := scanChars lineNum line fuel rest col2
      (t :: p.1, p.2)

/-- Scan one physical line: run the character loop with enough fuel. -/
def scanLine (lineNum : Nat) (line : List Char) : List Token × Nat :=
  scanChars lineNum line (line.length + 1) line 1

/-- Strip one trailing carriage return, as Rust's `str::lines` does for a
line terminated by `\n`. -/
def stripCR (l : List Char) : List Char :=
  if l.getLast? = some '\r' then l.dropLast else l

/-- Helper for `splitLines`: `acc` is the current line reversed. -/
def splitLinesAux : List Char → List Char → List (List Char)
  | [], acc => [acc.reverse]
  | c :: cs, acc =>
    if c = '\n' then
      match cs with
      | [] => [stripCR acc.reverse]
      | _ => stripCR acc.reverse :: splitLinesAux cs []
    else splitLinesAux cs (c :: acc)

/-- Rust's `str::lines`: split at `\n`, stripping a `\r` that precedes a
`\n`; a final line terminator yields no extra empty line; the empty string
has no lines. -/
def splitLines : List Char → List (List Char)
  | [] => []
  | c :: cs => splitLinesAux (c :: cs) []

/-- The outer `while let Some(line) = lines.next()` loop of `tokenize`: scan
each line and push one Newline token after it (at the final column of the
line's scan), incrementing the line number. -/
def tokenizeLines : Nat → List (List Char) → List Token
  | _, [] => []
  | lineNum, line :: rest =>
    let p := scanLine lineNum line
    p.1 ++ (⟨TokenKind.newline, none, ⟨lineNum, p.2⟩⟩ :: tokenizeLines (lineNum + 1) rest)

/-- `tokenize` from `tokenizer.rs`.  The Rust signature is
`anyhow::Result<Vec<Token>>`, but every `anyhow!(...)` in the body is an
expression statement whose value is dropped, so control always reaches the
final `anyhow::Ok(tokens)`: the embedding keeps the `Except` wrapper to make
that visible.  After the line loop, one EndOfFile token is pushed at
`(line_num, 1)` where `line_num` is one past the last line. -/
def tokenize (source : String) : Except String (List Token) :=
  let ls := splitLines source.toList
  Except.ok (tokenizeLines 1 ls ++ [⟨TokenKind.endOfFile, none, ⟨ls.length + 1, 1⟩⟩])

/-- Kind/text projection of a token list, for readable concrete statements. -/
def kindsTexts (ts : List Token) : List (TokenKind × Option String) :=
  ts.map fun t => (t.kind, t.text)

example : splitLines "a\nb".toList = [['a'], ['b']] := by decide
example : splitLines "a\n".toList = [['a']] := by decide
example : splitLines "".toList = [] := by decide

/-! ## The undefined-symbol check of `assemble` (`assembler.rs`) -/

/-- A Symbol Table entry.  Modelled from the spec: the Parser and SymbolTable
types are not in `src/` (only `assemble`, their caller, is); spec section 3
gives an entry a name, an optional unsigned value (none while unresolved) and
reference locations, and `check_for_unresolved` in `assemble` yields a
`(name, line)` pair per unresolved entry. -/
structure SymEntry where
  name : String
  value : Option Nat
  line : Nat
deriving DecidableEq, Repr

/-- Modelled from the spec: `SymbolTable::check_for_unresolved` is not in
`src/`; per spec sections 3 and 9 it is the dedicated query collecting every
entry that is still without a defined value, as `(name, line)` pairs in table
order. -/
def check_for_unresolved (st : List SymEntry) : List (String × Nat) :=
  st.filterMap fun e => if e.value = none then some (e.name, e.line) else none

/-- The `AssemblerError::SymbolError` value `assemble` builds for one
unresolved `(name, line)` pair (`assembler.rs` lines 34-37): message
`format!("Undefined symbol: {}", name)`, location `{line, col: 0}`. -/
def mkSymbolError (p : String × Nat) : AssemblerError :=
  AssemblerError.symbolError ("Undefined symbol: " ++ p.1) ⟨p.2, 0⟩

/-- The error-surfacing block of `assemble` (`assembler.rs` lines 31-44):
map each unresolved pair to a SymbolError; with no error continue (`none`),
with exactly one return it directly (`errors.remove(0)`), with more wrap the
ordered list in `MultipleErrors`. -/
def reportUnresolved (unresolved : List (String × Nat)) : Option AssemblerError :=
  match unresolved.map mkSymbolError with
  | [] => none
  | [e] => some e
  | e1 :: e2 :: rest => some (AssemblerError.multipleErrors (e1 :: e2 :: rest))

/-- The symbol-resolution stage of `assemble`: the check followed by the
error surfacing.  (The stages after it — memory allocation and code
generation — are not in `src/`.) -/
def assembleSymbolCheck (st : List SymEntry) : Option AssemblerError :=
  reportUnresolved (check_for_unresolved st)

/-- Whether an error is the aggregate (`MultipleErrors`) shape. -/
def isMultipleErrors : AssemblerError → Bool
  | AssemblerError.multipleErrors _ => true
  | _ => false

/-- Whether an error is a `SymbolError`. -/
def isSymbolError : AssemblerError → Bool
  | AssemblerError.symbolError _ _ => true
  | _ => false

/-- The individual errors an error report surfaces: the wrapped list of an
aggregate, the error itself otherwise. -/
def errorList : AssemblerError → List AssemblerError
  | AssemblerError.multipleErrors es => es
  | e => [e]

/-! ## `LI` pseudo-instruction expansion -/

/-- A native instruction of the documented subset (`assembler.rs` lines
6-10). -/
inductive Instr where
  | lui (rd : Nat) (imm : Int)
  | addi (rd rs1 : Nat) (imm : Int)
  | add (rd rs1 rs2 : Nat)
  | sub (rd rs1 rs2 : Nat)
deriving DecidableEq, Repr

/-- Modelled from the spec: the Parser performing pseudo-instruction
expansion is not in `src/`.  Spec section 4.2: the low part of the standard
RISC-V `LUI`/`ADDI` split, the sign-extended low 12 bits of the immediate,
in `ADDI`'s range [-2048, 2047]. -/
def lower12 (imm : Int) : Int := (imm + 2048) % 4096 - 2048

/-- Modelled from the spec: the upper 20 bits of the standard split,
compensated for the sign of `lower12` so that
`upper20 * 4096 + lower12 = imm` (modulo 2^32), in `LUI`'s range
[0, 0xFFFFF]. -/
def upper20 (imm : Int) : Int := ((imm - lower12 imm) / 4096) % 1048576

/-- Modelled from the spec: `LI rd, imm` expansion (spec section 4.2) —
one `ADDI rd, x0, imm` when the immediate fits `ADDI`'s signed 12-bit range,
else `LUI rd, upper20(imm)` followed by `ADDI rd, rd, lower12(imm)`.
(`assembler.rs`'s doc comment says 1-3 instructions; the spec fixes the
2-instruction maximum as the defined behavior, section 9.) -/
def expandLI (rd : Nat) (imm : Int) : List Instr :=
  if -2048 ≤ imm ∧ imm ≤ 2047 then [Instr.addi rd 0 imm]
  else [Instr.lui rd (upper20 imm), Instr.addi rd rd (lower12 imm)]

/-! ## The emulator CPU (`riscv-emu/src/cpu.rs`) -/

/-- `Cpu` from `cpu.rs`: `pc: u32`, `regs: [u32; 32]`, `dram: Vec<u8>`.
Machine words are `Nat` taken modulo `2 ^ 32`, bytes `Nat` below 256. -/
structure Cpu where
  pc : Nat
  regs : List Nat
  dram : List Nat
deriving DecidableEq, Repr

/-- `Cpu::new_with_instructions`. -/
def newWithInstructions (instructions : List Nat) : Cpu :=
  { pc := 0, regs := List.replicate 32 0, dram := instructions }

/-- `instruction & 0x7f` — bits 6:0. -/
def opcodeOf (i : Nat) : Nat := i &&& 0x7f

/-- `(instruction >> 7) & 0x1f` — bits 11:7. -/
def rdOf (i : Nat) : Nat := (i >>> 7) &&& 0x1f

/-- `(instruction >> 12) & 0x7` — bits 14:12. -/
def funct3Of (i : Nat) : Nat := (i >>> 12) &&& 0x7

/-- `(instruction >> 15) & 0x1f` — bits 19:15. -/
def rs1Of (i : Nat) : Nat := (i >>> 15) &&& 0x1f

/-- `(instruction >> 20) & 0x1f` — bits 24:20. -/
def rs2Of (i : Nat) : Nat := (i >>> 20) &&& 0x1f

/-- `(instruction >> 25) & 0x7f` — bits 31:25. -/
def funct7Of (i : Nat) : Nat := (i >>> 25) &&& 0x7f

/-- `((immediate as i32) >> 20) as u32` for `immediate < 2 ^ 32`: arithmetic
shift right by 20 of the word read as a signed 32-bit integer, re-read as
unsigned. -/
def signedShr20 (i : Nat) : Nat :=
  if i < 2 ^ 31 then i / 2 ^ 20 else i / 2 ^ 20 + (2 ^ 32 - 2 ^ 12)

/-- `Cpu::execute` from `cpu.rs`, arithmetic on `u32` done modulo `2 ^ 32`
(`wrapping_add` / `wrapping_sub`; register reads are assumed below `2 ^ 32`,
the representation invariant of `u32`).  The `dbg!` calls of the source only
print.  Opcodes or functs the source does not match leave the state
unchanged. -/
def execute (c : Cpu) (instruction : Nat) : Cpu :=
  let immediate := instruction
  let opcode := opcodeOf instruction
  let rd := rdOf instruction
  let funct3 := funct3Of instruction
  let rs1 := rs1Of instruction
  let rs2 := rs2Of instruction
  let funct7 := funct7Of instruction
  if opcode = 0b0110111 then
    -- LUI
    { c with regs := c.regs.set rd (immediate &&& 0xFFFFF000) }
  else if opcode = 0b0010011 then
    -- ADDI
    { c with regs := c.regs.set rd ((c.regs.getD rs1 0 + signedShr20 immediate) % 2 ^ 32) }
  else if opcode = 0b0110011 then
    if funct3 = 0x0 then
      if funct7 = 0x20 then
        -- SUB
        { c with regs := c.regs.set rd ((c.regs.getD rs1 0 + (2 ^ 32 - c.regs.getD rs2 0)) % 2 ^ 32) }
      else if funct7 = 0x0 then
        -- ADD
        { c with regs := c.regs.set rd ((c.regs.getD rs1 0 + c.regs.getD rs2 0) % 2 ^ 32) }
      else c
    else if funct3 = 0x4 then
      -- XOR
      { c with regs := c.regs.set rd (c.regs.getD rs1 0 ^^^ c.regs.getD rs2 0) }
    else if funct3 = 0x6 then
      -- OR
      { c with regs := c.regs.set rd (c.regs.getD rs1 0 ||| c.regs.getD rs2 0) }
    else if funct3 = 0x7 then
      -- AND
      { c with regs := c.regs.set rd (c.regs.getD rs1 0 &&& c.regs.getD rs2 0) }
    else c
  else c

/-- `Cpu::fetch` from `cpu.rs`: the little-endian 32-bit word at `pc`.
Rust indexing panics out of bounds, hence `Option`. -/
def fetch (c : Cpu) : Option Nat :=
  match c.dram.get? c.pc, c.dram.get? (c.pc + 1),
        c.dram.get? (c.pc + 2), c.dram.get? (c.pc + 3) with
  | some b0, some b1, some b2, some b3 =>
    some (b0 ||| b1 <<< 8 ||| b2 <<< 16 ||| b3 <<< 24)
  | _, _, _, _ => none

/-- `Cpu::step` from `cpu.rs`: fetch, then `pc += 4` (u32, hence modulo
`2 ^ 32`), then `regs[0] = 0`, then execute the fetched instruction. -/
def step (c : Cpu) : Option Cpu :=
  (fetch c).map fun instruction =>
    execute { c with pc := (c.pc + 4) % 2 ^ 32, regs := c.regs.set 0 0 } instruction

/-! ## Helper lemmas -/

/-- Or-ing a value below `2 ^ k` with a value shifted left by `k` is
addition: the bit ranges are disjoint. -/
lemma lor_shiftLeft_eq {a b k : Nat} (h : a < 2 ^ k) :
    a ||| b <<< k = 2 ^ k * b + a := by
  apply Nat.eq_of_testBit_eq
  intro i
  rw [Nat.testBit_or, Nat.testBit_shiftLeft, Nat.testBit_mul_pow_two_add _ h]
  by_cases hik : i < k
  · simp [hik, Nat.not_le.2 hik]
  · have hk : k ≤ i := Nat.not_lt.1 hik
    have ha : a < 2 ^ i := lt_of_lt_of_le h (Nat.pow_le_pow_right (by norm_num) hk)
    simp [hik, hk, Nat.testBit_lt_two_pow ha]

/-- Masking with an all-ones low mask is reduction modulo the power of two. -/
lemma and_two_pow_sub_one (n k : Nat) : n &&& (2 ^ k - 1) = n % 2 ^ k := by
  apply Nat.eq_of_testBit_eq
  intro i
  rw [Nat.testBit_and, Nat.testBit_two_pow_sub_one, Nat.testBit_mod_two_pow]
  by_cases hik : i < k <;> simp [hik]

/-- `Cpu::execute` never writes the program counter. -/
lemma execute_pc (c : Cpu) (i : Nat) : (execute c i).pc = c.pc := by
  simp only [execute]
  split_ifs <;> rfl

/-- `Cpu::execute` never touches the memory. -/
lemma execute_dram (c : Cpu) (i : Nat) : (execute c i).dram = c.dram := by
  simp only [execute]
  split_ifs <;> rfl

/-- A shifted field extraction: shift right then mask low bits. -/
lemma shift_mask_eq (n s k : Nat) : (n >>> s) &&& (2 ^ k - 1) = n / 2 ^ s % 2 ^ k := by
  rw [Nat.shiftRight_eq_div_pow, and_two_pow_sub_one]

/-- `classify_identifier` only ever answers one of the four identifier-like
kinds. -/
lemma classify_identifier_cases (s : String) :
    classify_identifier s = TokenKind.register
    ∨ classify_identifier s = TokenKind.instruction
    ∨ classify_identifier s = TokenKind.pseudoinstruction
    ∨ classify_identifier s = TokenKind.identifier := by
  unfold classify_identifier
  split_ifs <;> simp

/-- A token emitted by one loop iteration is never `Newline` or `EndOfFile`
(those are pushed outside the character loop), and when it is a `Directive`
its text is the whole line. -/
lemma scanStep_tok (lineNum : Nat) (line : List Char) (c : Char) (cs : List Char)
    (col : Nat) (t : Token) (rest : List Char) (col2 : Nat)
    (h : scanStep lineNum line c cs col = StepOut.tok t rest col2) :
    t.kind ≠ TokenKind.newline ∧ t.kind ≠ TokenKind.endOfFile ∧
      (t.kind = TokenKind.directive → t.text = some (String.mk line)) := by
  simp only [scanStep] at h
  by_cases h1 : c = ' ' ∨ c = '\t' ∨ c = '\r'
  · rw [if_pos h1] at h
    simp at h
  rw [if_neg h1] at h
  by_cases h2 : c = '#'
  · rw [if_pos h2] at h
    simp at h
  rw [if_neg h2] at h
  by_cases h3 : c = ','
  · rw [if_pos h3] at h
    simp only [StepOut.tok.injEq] at h
    obtain ⟨rfl, -, -⟩ := h
    simp
  rw [if_neg h3] at h
  by_cases h4 : c = ':'
  · rw [if_pos h4] at h
    simp only [StepOut.tok.injEq] at h
    obtain ⟨rfl, -, -⟩ := h
    simp
  rw [if_neg h4] at h
  by_cases h5 : c = '('
  · rw [if_pos h5] at h
    simp only [StepOut.tok.injEq] at h
    obtain ⟨rfl, -, -⟩ := h
    simp
  rw [if_neg h5] at h
  by_cases h6 : c = ')'
  · rw [if_pos h6] at h
    simp only [StepOut.tok.injEq] at h
    obtain ⟨rfl, -, -⟩ := h
    simp
  rw [if_neg h6] at h
  by_cases h7 : c = '-' ∨ c.isDigit = true
  · rw [if_pos h7] at h
    by_cases h8 : c = '-'
    · rw [if_pos h8] at h
      simp only [StepOut.tok.injEq] at h
      obtain ⟨rfl, -, -⟩ := h
      simp
    rw [if_neg h8] at h
    by_cases h9 : c = '0' ∧ cs.head? = some 'x'
    · rw [if_pos h9] at h
      simp only [StepOut.tok.injEq] at h
      obtain ⟨rfl, -, -⟩ := h
      simp
    · rw [if_neg h9] at h
      simp only [StepOut.tok.injEq] at h
      obtain ⟨rfl, -, -⟩ := h
      simp
  rw [if_neg h7] at h
  by_cases h10 : c = '.'
  · rw [if_pos h10] at h
    simp only [StepOut.tok.injEq] at h
    obtain ⟨rfl, -, -⟩ := h
    simp
  rw [if_neg h10] at h
  by_cases h11 : c.isAlpha = true ∨ c = '_'
  · rw [if_pos h11] at h
    simp only [StepOut.tok.injEq] at h
    obtain ⟨rfl, -, -⟩ := h
    rcases classify_identifier_cases (String.mk (c :: (takeIdent cs).1))
      with hc | hc | hc | hc <;> simp [hc]
  rw [if_neg h11] at h
  by_cases h12 : c = '"'
  · rw [if_pos h12] at h
    simp only [StepOut.tok.injEq] at h
    obtain ⟨rfl, -, -⟩ := h
    simp
  · rw [if_neg h12] at h
    simp at h

/-- Tokens collected by the line scanner all come from `scanStep`
iterations, so `scanStep_tok`'s guarantees hold of each. -/
lemma scanChars_tokens (lineNum : Nat) (line : List Char) :
    ∀ (fuel : Nat) (cs : List Char) (col : Nat) (t : Token),
      t ∈ (scanChars lineNum line fuel cs col).1 →
      t.kind ≠ TokenKind.newline ∧ t.kind ≠ TokenKind.endOfFile ∧
        (t.kind = TokenKind.directive → t.text = some (String.mk line)) := by
  intro fuel
  induction fuel with
  | zero => intro cs col t ht; simp [scanChars] at ht
  | succ n ih =>
    intro cs col t ht
    cases cs with
    | nil => simp [scanChars] at ht
    | cons c cs =>
      rw [scanChars.eq_3] at ht
      cases hstep : scanStep lineNum line c cs col with
      | skip rest col2 =>
        rw [hstep] at ht
        exact ih _ _ t ht
      | stop col2 =>
        rw [hstep] at ht
        exact absurd ht (List.not_mem_nil t)
      | tok tk rest col2 =>
        rw [hstep] at ht
        have ht2 : t = tk ∨ t ∈ (scanChars lineNum line n rest col2).1 :=
          List.mem_cons.1 ht
        rcases ht2 with rfl | ht3
        · exact scanStep_tok lineNum line c cs col t rest col2 hstep
        · exact ih _ _ t ht3

/-- `scanLine` version of `scanChars_tokens`. -/
lemma scanLine_tokens (lineNum : Nat) (line : List Char) (t : Token)
    (ht : t ∈ (scanLine lineNum line).1) :
    t.kind ≠ TokenKind.newline ∧ t.kind ≠ TokenKind.endOfFile ∧
      (t.kind = TokenKind.directive → t.text = some (String.mk line)) :=
  scanChars_tokens lineNum line _ _ _ t ht

/-- Tokens of the line loop: never `EndOfFile`; a `Directive` token's text
is one of the input's lines, whole. -/
lemma tokenizeLines_mem (n : Nat) (ls : List (List Char)) (t : Token)
    (ht : t ∈ tokenizeLines n ls) :
    t.kind ≠ TokenKind.endOfFile ∧
      (t.kind = TokenKind.directive → ∃ l ∈ ls, t.text = some (String.mk l)) := by
  induction ls generalizing n with
  | nil => simp [tokenizeLines] at ht
  | cons l rest ih =>
    simp only [tokenizeLines] at ht
    rcases List.mem_append.1 ht with h1 | h2
    · obtain ⟨_, hne, hdir⟩ := scanLine_tokens n l t h1
      exact ⟨hne, fun hd => ⟨l, by simp, hdir hd⟩⟩
    · rcases List.mem_cons.1 h2 with rfl | h3
      · exact ⟨by simp, by simp⟩
      · obtain ⟨hne, hdir⟩ := ih (n + 1) h3
        refine ⟨hne, fun hd => ?_⟩
        obtain ⟨l2, hl2, hx⟩ := hdir hd
        exact ⟨l2, List.mem_cons_of_mem _ hl2, hx⟩

/-- How many tokens of a given kind a token list holds. -/
def countKind (k : TokenKind) (ts : List Token) : Nat :=
  ts.countP fun t => decide (t.kind = k)

lemma countKind_append (k : TokenKind) (a b : List Token) :
    countKind k (a ++ b) = countKind k a + countKind k b := by
  simp [countKind, List.countP_append]

/-- The line loop emits exactly one Newline token per line. -/
lemma tokenizeLines_count_newline (n : Nat) (ls : List (List Char)) :
    countKind TokenKind.newline (tokenizeLines n ls) = ls.length := by
  induction ls generalizing n with
  | nil => simp [tokenizeLines, countKind]
  | cons l rest ih =>
    simp only [tokenizeLines]
    rw [show ((scanLine n l).1 ++
        (⟨TokenKind.newline, none, ⟨n, (scanLine n l).2⟩⟩ :: tokenizeLines (n + 1) rest)) =
        (scanLine n l).1 ++
        ([⟨TokenKind.newline, none, ⟨n, (scanLine n l).2⟩⟩] ++ tokenizeLines (n + 1) rest)
      from rfl]
    rw [countKind_append, countKind_append, ih]
    have h0 : countKind TokenKind.newline (scanLine n l).1 = 0 := by
      rw [countKind, List.countP_eq_zero]
      intro t ht
      simpa using (scanLine_tokens n l t ht).1
    rw [h0]
    simp [countKind]
    omega

/-- The line loop never emits an EndOfFile token. -/
lemma tokenizeLines_count_eof (n : Nat) (ls : List (List Char)) :
    countKind TokenKind.endOfFile (tokenizeLines n ls) = 0 := by
  rw [countKind, List.countP_eq_zero]
  intro t ht
  simpa using (tokenizeLines_mem n ls t ht).1

/-- `tokenize`'s output decomposed: the line loop's tokens followed by the
single EndOfFile token. -/
lemma tokenize_eq (s : String) (ts : List Token) (h : tokenize s = Except.ok ts) :
    ts = tokenizeLines 1 (splitLines s.toList) ++
      [⟨TokenKind.endOfFile, none, ⟨(splitLines s.toList).length + 1, 1⟩⟩] := by
  have hts := h
  simp only [tokenize, Except.ok.injEq] at hts
  exact hts.symm

/-! ## Claims -/

/-- C1: the spec's example claims
`"loop: addi x1, x0, 5 # comment\n"` tokenizes to 10 tokens with single
`Register` tokens for `x1` and `x0`.  The code disagrees: its identifier run
accepts only ASCII letters and underscore, never digits
(`c.is_ascii_alphabetic() || c == &'_'`), so `x1` is lexed as
`Identifier("x")` followed by `Number(Dec, "1")` and the input yields 12
tokens.  The repository's own unit test `test_simple_instruction` asserts
the 10-token form with `Register("x1")`, so the code contradicts its own
test.  This theorem evaluates the embedded tokenizer at the exact input. -/
theorem c1_tokenize_example_splits_registers :
    (tokenize "loop: addi x1, x0, 5 # comment\n").map kindsTexts =
      Except.ok
        [(TokenKind.identifier, some "loop"), (TokenKind.colon, some ":"),
         (TokenKind.instruction, some "addi"), (TokenKind.identifier, some "x"),
         (TokenKind.number Base.dec, some "1"), (TokenKind.comma, some ","),
         (TokenKind.identifier, some "x"), (TokenKind.number Base.dec, some "0"),
         (TokenKind.comma, some ","), (TokenKind.number Base.dec, some "5"),
         (TokenKind.newline, none), (TokenKind.endOfFile, none)] := rfl

/-- C2: the spec claims `tokenize` fails with a `TokenizerError` on an
unexpected character such as `@`, and on an unterminated string.  The code
builds these errors with `anyhow!(...)` but never returns them (the value of
the macro call is discarded — no `return` or `bail!`), so `tokenize`
succeeds on every input: `"@"` yields `Ok` with the character silently
skipped, and the unterminated string `"abc` yields `Ok` with a String
token. -/
theorem c2_tokenize_never_fails :
    tokenize "@" = Except.ok
      [⟨TokenKind.newline, none, ⟨1, 1⟩⟩, ⟨TokenKind.endOfFile, none, ⟨2, 1⟩⟩]
    ∧ tokenize "\"abc" = Except.ok
      [⟨TokenKind.string, some "\"abc", ⟨1, 1⟩⟩, ⟨TokenKind.newline, none, ⟨1, 5⟩⟩,
       ⟨TokenKind.endOfFile, none, ⟨2, 1⟩⟩] := ⟨rfl, rfl⟩

/-- C6: the spec claims that for non-empty input lacking a trailing newline
the token before the final `EndOfFile` is the last real token, not a
`Newline`.  The code pushes a `Newline` token after every line of
`source.lines()`, including the final unterminated one, so the token before
`EndOfFile` is always a `Newline`.  The repository's own test
`test_simple_instruction_1` asserts 8 tokens with `EndOfFile` directly after
`RParen` for `"lb a0, 8(sp)"`, which the code does not satisfy.  Evaluation
at the register-only input `"sp"`. -/
theorem c6_trailing_newline_emitted_anyway :
    tokenize "sp" = Except.ok
      [⟨TokenKind.register, some "sp", ⟨1, 1⟩⟩, ⟨TokenKind.newline, none, ⟨1, 3⟩⟩,
       ⟨TokenKind.endOfFile, none, ⟨2, 1⟩⟩] := rfl

/-- C3 (counterexample): with two undefined symbols the error `assemble`
returns is the aggregate `MultipleErrors`, not a `SymbolError` value as the
claim states. -/
theorem c3_counterexample_two_undefined_symbols :
    assembleSymbolCheck [⟨"foo", none, 3⟩, ⟨"bar", none, 7⟩] =
      some (AssemblerError.multipleErrors
        [AssemblerError.symbolError "Undefined symbol: foo" ⟨3, 0⟩,
         AssemblerError.symbolError "Undefined symbol: bar" ⟨7, 0⟩])
    ∧ (assembleSymbolCheck [⟨"foo", none, 3⟩, ⟨"bar", none, 7⟩]).map isSymbolError =
        some false := ⟨rfl, rfl⟩

/-- C3 (amended): for every symbol table holding at least one undefined
entry, the symbol-check stage of `assemble` fails, and for each undefined
symbol a `SymbolError` whose message carries the symbol's name and whose
location carries its line number is among the surfaced errors — returned
directly when it is the only one, inside the `MultipleErrors` aggregate
otherwise. -/
theorem c3_undefined_symbol_yields_symbol_error (st : List SymEntry) (e : SymEntry)
    (he : e ∈ st) (hv : e.value = none) :
    ∃ err, assembleSymbolCheck st = some err ∧
      AssemblerError.symbolError ("Undefined symbol: " ++ e.name) ⟨e.line, 0⟩ ∈
        errorList err := by
  have hmem : (e.name, e.line) ∈ check_for_unresolved st := by
    unfold check_for_unresolved
    exact List.mem_filterMap.2 ⟨e, he, by simp [hv]⟩
  have hmem2 : mkSymbolError (e.name, e.line) ∈
      (check_for_unresolved st).map mkSymbolError :=
    List.mem_map_of_mem _ hmem
  unfold assembleSymbolCheck reportUnresolved
  cases hl : (check_for_unresolved st).map mkSymbolError with
  | nil => rw [hl] at hmem2; simp at hmem2
  | cons x xs =>
    rw [hl] at hmem2
    cases xs with
    | nil =>
      refine ⟨x, rfl, ?_⟩
      have hx : mkSymbolError (e.name, e.line) = x := by simpa using hmem2
      rw [← hx]
      simp [mkSymbolError, errorList]
    | cons y ys =>
      exact ⟨AssemblerError.multipleErrors (x :: y :: ys), rfl, by
        simpa [errorList, mkSymbolError] using hmem2⟩

/-- C3 (witness): a table with the single undefined symbol `foo` on line 3. -/
theorem c3_undefined_symbol_witness :
    ∃ err, assembleSymbolCheck [⟨"foo", none, 3⟩] = some err ∧
      AssemblerError.symbolError ("Undefined symbol: " ++ "foo") ⟨3, 0⟩ ∈
        errorList err :=
  c3_undefined_symbol_yields_symbol_error [⟨"foo", none, 3⟩] ⟨"foo", none, 3⟩
    (by simp) rfl

/-- C4: when the symbol-check stage of `assemble` detects errors, a single
collected error is returned directly (and it is not an aggregate), while
more than one are returned as one `MultipleErrors` wrapping the ordered list
of individual errors, each built at its own location, and no element of the
aggregate is itself an aggregate. -/
theorem c4_single_direct_multiple_aggregated (u : List (String × Nat)) :
    (∀ p, u = [p] →
      reportUnresolved u = some (mkSymbolError p) ∧
        isMultipleErrors (mkSymbolError p) = false)
    ∧ (1 < u.length →
      reportUnresolved u = some (AssemblerError.multipleErrors (u.map mkSymbolError))
      ∧ ∀ e ∈ u.map mkSymbolError, isMultipleErrors e = false) := by
  constructor
  · rintro p rfl
    exact ⟨rfl, rfl⟩
  · intro hu
    match u, hu with
    | (a :: b :: rest), _ =>
      refine ⟨rfl, ?_⟩
      intro e he
      rcases List.mem_map.1 he with ⟨p, _, rfl⟩
      rfl

/-- C8: `LI rd, imm` expands to exactly one `ADDI rd, x0, imm` when the
immediate is in the signed 12-bit range, and to exactly `LUI` followed by
`ADDI` otherwise — 1 or 2 instructions, never 3; the split parts lie in
`LUI`'s and `ADDI`'s ranges and recombine to the immediate modulo `2 ^ 32`
(`upper20 * 4096 + lower12 = imm`). -/
theorem c8_li_expands_to_one_or_two (rd : Nat) (imm : Int) :
    ((-2048 ≤ imm ∧ imm ≤ 2047) → expandLI rd imm = [Instr.addi rd 0 imm])
    ∧ (¬(-2048 ≤ imm ∧ imm ≤ 2047) →
        expandLI rd imm = [Instr.lui rd (upper20 imm), Instr.addi rd rd (lower12 imm)])
    ∧ ((expandLI rd imm).length = 1 ∨ (expandLI rd imm).length = 2)
    ∧ 0 ≤ upper20 imm ∧ upper20 imm ≤ 1048575
    ∧ -2048 ≤ lower12 imm ∧ lower12 imm ≤ 2047
    ∧ (upper20 imm * 4096 + lower12 imm) % 2 ^ 32 = imm % 2 ^ 32 := by
  refine ⟨fun h => by simp [expandLI, h.1, h.2], fun h => by simp [expandLI, h], ?_, ?_⟩
  · unfold expandLI
    split
    · left; rfl
    · right; rfl
  · unfold upper20 lower12
    norm_num
    omega

/-- C10: `Cpu::step` resets `regs[0]` to zero after fetching and before
executing (`execute` is the last thing `step` does, so nothing clears the
register afterwards); consequently executing `LUI x0` with a nonzero
immediate leaves `regs[0]` nonzero when `step` returns, and the register
only becomes zero again during the next `step`. -/
theorem c10_x0_reset_before_execute_only (c : Cpu) (i : Nat)
    (h : fetch c = some i) :
    step c = some (execute { c with pc := (c.pc + 4) % 2 ^ 32, regs := c.regs.set 0 0 } i)
    ∧ (∃ c1 c2,
        step (newWithInstructions [0x37, 0x10, 0, 0, 0, 0, 0, 0]) = some c1
        ∧ c1.regs.getD 0 0 = 0x1000
        ∧ step c1 = some c2
        ∧ c2.regs.getD 0 0 = 0) := by
  refine ⟨by simp [step, h], ⟨_, _, rfl, rfl, rfl, rfl⟩⟩

/-- C5: on every input (tokenization always succeeds, see C2) the token
sequence holds exactly one Newline token per physical line — lines empty
after whitespace/comment removal included — and is terminated by exactly one
EndOfFile token, which is the last token. -/
theorem c5_one_newline_per_line_single_final_eof (s : String) (ts : List Token)
    (h : tokenize s = Except.ok ts) :
    countKind TokenKind.newline ts = (splitLines s.toList).length
    ∧ countKind TokenKind.endOfFile ts = 1
    ∧ ts.getLast? =
        some ⟨TokenKind.endOfFile, none, ⟨(splitLines s.toList).length + 1, 1⟩⟩ := by
  have hts := tokenize_eq s ts h
  subst hts
  refine ⟨?_, ?_, List.getLast?_concat _⟩
  · rw [countKind_append, tokenizeLines_count_newline]
    simp [countKind]
  · rw [countKind_append, tokenizeLines_count_eof]
    simp [countKind]

/-- C5 (witness): the two-line input `"a\nb"`. -/
theorem c5_witness_two_lines :
    countKind TokenKind.newline
      [⟨TokenKind.identifier, some "a", ⟨1, 1⟩⟩, ⟨TokenKind.newline, none, ⟨1, 2⟩⟩,
       ⟨TokenKind.identifier, some "b", ⟨2, 1⟩⟩, ⟨TokenKind.newline, none, ⟨2, 2⟩⟩,
       ⟨TokenKind.endOfFile, none, ⟨3, 1⟩⟩] = 2
    ∧ countKind TokenKind.endOfFile
      [⟨TokenKind.identifier, some "a", ⟨1, 1⟩⟩, ⟨TokenKind.newline, none, ⟨1, 2⟩⟩,
       ⟨TokenKind.identifier, some "b", ⟨2, 1⟩⟩, ⟨TokenKind.newline, none, ⟨2, 2⟩⟩,
       ⟨TokenKind.endOfFile, none, ⟨3, 1⟩⟩] = 1
    ∧ ([⟨TokenKind.identifier, some "a", ⟨1, 1⟩⟩, ⟨TokenKind.newline, none, ⟨1, 2⟩⟩,
        ⟨TokenKind.identifier, some "b", ⟨2, 1⟩⟩, ⟨TokenKind.newline, none, ⟨2, 2⟩⟩,
        ⟨TokenKind.endOfFile, none, ⟨3, 1⟩⟩] : List Token).getLast? =
        some ⟨TokenKind.endOfFile, none, ⟨3, 1⟩⟩ :=
  c5_one_newline_per_line_single_final_eof "a\nb"
    [⟨TokenKind.identifier, some "a", ⟨1, 1⟩⟩, ⟨TokenKind.newline, none, ⟨1, 2⟩⟩,
     ⟨TokenKind.identifier, some "b", ⟨2, 1⟩⟩, ⟨TokenKind.newline, none, ⟨2, 2⟩⟩,
     ⟨TokenKind.endOfFile, none, ⟨3, 1⟩⟩] rfl

/-- C9: every `Directive` token of `tokenize`'s output carries as its text
an entire source line (the line it was found on), not the directive lexeme
itself. -/
theorem c9_directive_token_text_is_whole_line (s : String) (ts : List Token)
    (h : tokenize s = Except.ok ts) (t : Token) (ht : t ∈ ts)
    (hk : t.kind = TokenKind.directive) :
    ∃ l ∈ splitLines s.toList, t.text = some (String.mk l) := by
  have hts := tokenize_eq s ts h
  subst hts
  rcases List.mem_append.1 ht with h1 | h2
  · exact (tokenizeLines_mem 1 _ t h1).2 hk
  · simp only [List.mem_singleton] at h2
    subst h2
    simp at hk

/-- C9 (witness): `"my_var: .word 123"` — its Directive token's text is the
whole line. -/
theorem c9_witness_word_directive :
    ∃ l ∈ splitLines "my_var: .word 123".toList,
      (some "my_var: .word 123" : Option String) = some (String.mk l) :=
  c9_directive_token_text_is_whole_line "my_var: .word 123"
    [⟨TokenKind.identifier, some "my_var", ⟨1, 1⟩⟩, ⟨TokenKind.colon, some ":", ⟨1, 7⟩⟩,
     ⟨TokenKind.directive, some "my_var: .word 123", ⟨1, 9⟩⟩,
     ⟨TokenKind.number Base.dec, some "123", ⟨1, 15⟩⟩,
     ⟨TokenKind.newline, none, ⟨1, 18⟩⟩, ⟨TokenKind.endOfFile, none, ⟨2, 1⟩⟩]
    rfl ⟨TokenKind.directive, some "my_var: .word 123", ⟨1, 9⟩⟩ (by simp) rfl

/-- C7: one `Cpu::step` on a state whose dram holds the 4 bytes at `pc`
fetches the little-endian word assembled from them (`dram[pc]` least
significant), advances `pc` by exactly 4, and hands `execute` that word,
which decodes opcode from bits 6:0, rd from bits 11:7, funct3 from bits
14:12, rs1 from bits 19:15, rs2 from bits 24:20 and funct7 from bits 31:25
(the extractors `opcodeOf` … `funct7Of` are the ones `execute` uses). -/
theorem c7_step_fetches_le_word_and_decodes (c : Cpu) (b0 b1 b2 b3 : Nat)
    (h0 : c.dram.get? c.pc = some b0) (h1 : c.dram.get? (c.pc + 1) = some b1)
    (h2 : c.dram.get? (c.pc + 2) = some b2) (h3 : c.dram.get? (c.pc + 3) = some b3)
    (hb0 : b0 < 256) (hb1 : b1 < 256) (hb2 : b2 < 256) (hb3 : b3 < 256)
    (hpc : c.pc + 4 < 2 ^ 32) :
    fetch c = some (b0 + 2 ^ 8 * b1 + 2 ^ 16 * b2 + 2 ^ 24 * b3)
    ∧ step c = some (execute { c with pc := c.pc + 4, regs := c.regs.set 0 0 }
        (b0 + 2 ^ 8 * b1 + 2 ^ 16 * b2 + 2 ^ 24 * b3))
    ∧ (∀ c2, step c = some c2 → c2.pc = c.pc + 4)
    ∧ (∀ w : Nat,
        opcodeOf w = w % 2 ^ 7 ∧ rdOf w = w / 2 ^ 7 % 2 ^ 5
        ∧ funct3Of w = w / 2 ^ 12 % 2 ^ 3 ∧ rs1Of w = w / 2 ^ 15 % 2 ^ 5
        ∧ rs2Of w = w / 2 ^ 20 % 2 ^ 5 ∧ funct7Of w = w / 2 ^ 25 % 2 ^ 7) := by
  have e1 : b0 ||| b1 <<< 8 = 2 ^ 8 * b1 + b0 := lor_shiftLeft_eq hb0
  have l1 : 2 ^ 8 * b1 + b0 < 2 ^ 16 := by norm_num; omega
  have e2 : b0 ||| b1 <<< 8 ||| b2 <<< 16 = 2 ^ 16 * b2 + (2 ^ 8 * b1 + b0) := by
    rw [e1]; exact lor_shiftLeft_eq l1
  have l2 : 2 ^ 16 * b2 + (2 ^ 8 * b1 + b0) < 2 ^ 24 := by norm_num; omega
  have e3 : b0 ||| b1 <<< 8 ||| b2 <<< 16 ||| b3 <<< 24
      = 2 ^ 24 * b3 + (2 ^ 16 * b2 + (2 ^ 8 * b1 + b0)) := by
    rw [e2]; exact lor_shiftLeft_eq l2
  have hw : b0 ||| b1 <<< 8 ||| b2 <<< 16 ||| b3 <<< 24
      = b0 + 2 ^ 8 * b1 + 2 ^ 16 * b2 + 2 ^ 24 * b3 := by rw [e3]; ring
  have hf : fetch c = some (b0 + 2 ^ 8 * b1 + 2 ^ 16 * b2 + 2 ^ 24 * b3) := by
    unfold fetch
    rw [h0, h1, h2, h3]
    exact congrArg some hw
  have hm : (c.pc + 4) % 2 ^ 32 = c.pc + 4 := Nat.mod_eq_of_lt hpc
  have hs : step c = some (execute { c with pc := c.pc + 4, regs := c.regs.set 0 0 }
      (b0 + 2 ^ 8 * b1 + 2 ^ 16 * b2 + 2 ^ 24 * b3)) := by
    unfold step
    rw [hf, hm]
    rfl
  refine ⟨hf, hs, ?_, ?_⟩
  · intro c2 hc2
    rw [hs] at hc2
    cases hc2
    simp [execute_pc]
  · intro w
    refine ⟨?_, ?_, ?_, ?_, ?_, ?_⟩
    · simpa [opcodeOf] using and_two_pow_sub_one w 7
    · simpa [rdOf] using shift_mask_eq w 7 5
    · simpa [funct3Of] using shift_mask_eq w 12 3
    · simpa [rs1Of] using shift_mask_eq w 15 5
    · simpa [rs2Of] using shift_mask_eq w 20 5
    · simpa [funct7Of] using shift_mask_eq w 25 7

/-- C7 (witness): a machine holding the single word `0x00000013`. -/
theorem c7_witness_concrete_fetch :
    fetch (newWithInstructions [0x13, 0, 0, 0]) =
      some (0x13 + 2 ^ 8 * 0 + 2 ^ 16 * 0 + 2 ^ 24 * 0) :=
  (c7_step_fetches_le_word_and_decodes (newWithInstructions [0x13, 0, 0, 0])
    0x13 0 0 0 rfl rfl rfl rfl (by norm_num) (by norm_num) (by norm_num)
    (by norm_num) (by decide)).1

/-- C10 (witness): a concrete one-instruction machine. -/
theorem c10_x0_reset_witness :
    step (newWithInstructions [0x13, 0, 0, 0]) =
      some (execute { pc := (0 + 4) % 2 ^ 32, regs := (List.replicate 32 0).set 0 0,
                      dram := [0x13, 0, 0, 0] } 0x13)
    ∧ (∃ c1 c2,
        step (newWithInstructions [0x37, 0x10, 0, 0, 0, 0, 0, 0]) = some c1
        ∧ c1.regs.getD 0 0 = 0x1000
        ∧ step c1 = some c2
        ∧ c2.regs.getD 0 0 = 0) :=
  c10_x0_reset_before_execute_only (newWithInstructions [0x13, 0, 0, 0]) 0x13 rfl

end EasyRiscv
